import Mathlib

set_option autoImplicit false

deriving instance DecidableEq for Except

namespace Thermos

/-! Shallow embedding of `src/python/twitter/thermos/config/loader.py`.

The loader is written against the pystachio templating library and the
`twitter.thermos.config.schema` module, neither of which is present under
`src/`.  Those collaborators are modelled from the specification (each such
definition carries a doc comment starting with `Modelled from the spec:`);
the control flow of `loader.py` itself is embedded directly from the source.
-/

/-- Modelled from the spec: a component of a pystachio reference path.  The
spec distinguishes dotted attribute access (`a.b`) from index-style access
(`a[b]`); `map` models the former, `idx` the latter. -/
inductive Component where
  | map (v : String)
  | idx (v : String)
  deriving DecidableEq

/-- Name carried by a reference-path component (pystachio `Component.value`). -/
def Component.value : Component → String
  | .map v => v
  | .idx v => v

/-- Modelled from the spec: a pystachio `Ref`, the addressable path of a
template placeholder (spec: "Unresolved Reference — a template placeholder
left after interpolation; carries an addressable path"). -/
structure Ref where
  components : List Component
  deriving DecidableEq

/-- Modelled from the spec: `Ref.scoped_to` — "reference objects supporting
scoped_to(other_ref) → a sub-reference or none if other_ref is not a prefix
of this reference's path".  `pfx.scoped_to other` returns the remainder of
`other` past `pfx` when `pfx` is a proper initial segment, else `none`. -/
def Ref.scoped_to (pfx other : Ref) : Option Ref :=
  if other.components.take pfx.components.length = pfx.components ∧
      pfx.components.length < other.components.length then
    some ⟨other.components.drop pfx.components.length⟩
  else none

/-- Modelled from the spec: pystachio `Ref.is_index`.  The spec requires the
sub-reference to "represent a single-level index access (a bare name, not a
further nested path or wildcard)"; this predicate holds exactly for such
single-level index references. -/
def Ref.is_index : Ref → Bool
  | ⟨[Component.idx _]⟩ => true
  | _ => false

/-- Modelled from the spec: pystachio `Ref.action`, the first component of a
reference path (total here, padding the impossible empty case). -/
def Ref.action : Ref → Component
  | ⟨c :: _⟩ => c
  | ⟨[]⟩ => Component.map ""

/-- Split a character list on a separator character; always returns at
least one (possibly empty) chunk. -/
def splitChar (sep : Char) (l : List Char) : List (List Char) :=
  l.foldr
    (fun c acc =>
      if c = sep then [] :: acc
      else
        match acc with
        | [] => [[c]]
        | cur :: rest => (c :: cur) :: rest)
    [[]]

/-- Parse one dotted token of an address, splitting a trailing `[name]`
index access off a `map` access. -/
def parseRefToken (tok : List Char) : List Component :=
  match splitChar '[' tok with
  | [m, i] =>
      [Component.map (String.mk m),
       Component.idx (String.mk (i.takeWhile (fun c => c ≠ ']')))]
  | _ => [Component.map (String.mk tok)]

/-- Modelled from the spec: pystachio `Ref.from_address`, parsing a dotted
address such as `thermos.ports` into a reference path. -/
def Ref.from_address (s : String) : Ref :=
  ⟨(splitChar '.' s.data).foldr (fun tok acc => parseRefToken tok ++ acc) []⟩

/-- Render one component back into address form. -/
def Component.render : Component → String
  | .map v => "." ++ v
  | .idx v => "[" ++ v ++ "]"

/-- Modelled from the spec: pystachio `Ref.address`, the printed form of a
reference path. -/
def Ref.address : Ref → String
  | ⟨[]⟩ => ""
  | ⟨Component.map v :: rest⟩ =>
      v ++ (rest.map Component.render).foldr (· ++ ·) ""
  | ⟨Component.idx v :: rest⟩ =>
      "[" ++ v ++ "]" ++ (rest.map Component.render).foldr (· ++ ·) ""

/-- Modelled from the spec: one part of a templated string — either literal
text or a mustache placeholder holding an unresolved reference (spec §9: "an
explicit tagged-variant node type for template values"). -/
inductive TPart where
  | lit (s : String)
  | ref (r : Ref)
  deriving DecidableEq

/-- A templated string is a sequence of parts. -/
abbrev TStr := List TPart

/-- Modelled from the spec: a binding is "a key/value pair (dotted name →
string) supplied by the caller to resolve template placeholders". -/
abbrev Binding := Ref × String

/-- Look a reference up in an ordered binding environment; the spec fixes
override precedence: "later binding for the same key wins". -/
def lookupBinding (env : List Binding) (r : Ref) : Option String :=
  env.foldl (fun acc kv => if kv.1 = r then some kv.2 else acc) none

/-- Substitute bound references in one template part. -/
def TPart.subst (env : List Binding) : TPart → TPart
  | .lit s => .lit s
  | .ref r =>
      match lookupBinding env r with
      | some v => .lit v
      | none => .ref r

/-- Substitute bound references throughout a templated string. -/
def TStr.subst (env : List Binding) (ts : TStr) : TStr :=
  ts.map (TPart.subst env)

/-- The references still unresolved in a templated string, in order. -/
def TStr.uninterp (ts : TStr) : List Ref :=
  ts.filterMap fun p =>
    match p with
    | .ref r => some r
    | .lit _ => none

def lbrace : Char := Char.ofNat 123

def rbrace : Char := Char.ofNat 125

/-- Render one template part back to text; unresolved references render in
mustache syntax. -/
def TPart.render : TPart → String
  | .lit s => s
  | .ref r => String.mk [lbrace, lbrace] ++ r.address ++ String.mk [rbrace, rbrace]

/-- Render a templated string back to text. -/
def TStr.render (ts : TStr) : String :=
  (ts.map TPart.render).foldr (· ++ ·) ""

/-- References of an optional templated field. -/
def uninterpO : Option TStr → List Ref
  | none => []
  | some ts => ts.uninterp

/-- Modelled from the spec: the `Process` schema type of
`twitter.thermos.config.schema` — "a named unit of work inside a Task
Template: a command line, and boolean flags (daemon, ephemeral, final)" —
plus the pystachio scope environment attached by `bind`. -/
structure Process where
  name : Option TStr
  cmdline : Option TStr
  daemon : Option Bool
  ephemeral : Option Bool
  final : Option Bool
  scopes : List Binding
  deriving DecidableEq

/-- Push an outer scope environment underneath a process's own scopes (the
process's own bindings take precedence). -/
def Process.withScopes (env : List Binding) (p : Process) : Process :=
  { p with scopes := env ++ p.scopes }

/-- Modelled from the spec: pystachio interpolation of a process —
"resolving template placeholders using supplied bindings, producing a
concrete value plus a residual list of still-unresolved references". -/
def Process.interpolate (p : Process) : Process × List Ref :=
  ({ name := p.name.map (TStr.subst p.scopes),
     cmdline := p.cmdline.map (TStr.subst p.scopes),
     daemon := p.daemon, ephemeral := p.ephemeral, final := p.final,
     scopes := [] },
   uninterpO (p.name.map (TStr.subst p.scopes)) ++
     uninterpO (p.cmdline.map (TStr.subst p.scopes)))

/-- Modelled from the spec: the `Task` schema type of
`twitter.thermos.config.schema` — a named document holding a list of
processes — plus the pystachio scope environment attached by `bind`. -/
structure Task where
  name : Option TStr
  processes : Option (List Process)
  scopes : List Binding
  deriving DecidableEq

/-- Modelled from the spec: pystachio `bind` — "apply them to the template
in order, producing a new bound template (original is untouched)". -/
def Task.bind (t : Task) (bs : List Binding) : Task :=
  { t with scopes := t.scopes ++ bs }

/-- Modelled from the spec: pystachio interpolation of a task; the task's
scopes propagate into each process, and the residual unresolved references
are collected in field order. -/
def Task.interpolate (t : Task) : Task × List Ref :=
  match t.processes with
  | none =>
      ({ name := t.name.map (TStr.subst t.scopes), processes := none, scopes := [] },
       uninterpO (t.name.map (TStr.subst t.scopes)))
  | some ps =>
      let prs := ps.map fun p => (Process.withScopes t.scopes p).interpolate
      ({ name := t.name.map (TStr.subst t.scopes),
         processes := some (prs.map Prod.fst), scopes := [] },
       uninterpO (t.name.map (TStr.subst t.scopes)) ++
         (prs.map Prod.snd).foldr (· ++ ·) [])

/-- Result of a pystachio type check: an ok flag plus a diagnostic message
(pystachio `TypeCheck.ok()` / `TypeCheck.message()`). -/
structure TypeCheck where
  ok : Bool
  message : String
  deriving DecidableEq

/-- Modelled from the spec: required-field validation of a process
("structural/semantic validation (type-checking against the schema,
required-field checks)"); a process requires `name` and `cmdline`. -/
def Process.check (p : Process) : TypeCheck :=
  if p.name.isNone then ⟨false, "Process[name] is required."⟩
  else if p.cmdline.isNone then ⟨false, "Process[cmdline] is required."⟩
  else ⟨true, "OK"⟩

/-- Modelled from the spec: required-field validation of a task; a task
requires `name` and `processes`, and every process must itself check. -/
def Task.check (t : Task) : TypeCheck :=
  if t.name.isNone then ⟨false, "Task[name] is required."⟩
  else
    match t.processes with
    | none => ⟨false, "Task[processes] is required."⟩
    | some ps =>
        match ps.find? (fun p => !(p.check).ok) with
        | some p => p.check
        | none => ⟨true, "OK"⟩

/-- Modelled from the spec: a JSON document value, the shape produced by
`json.dump`/`json.load` ("a JSON object whose shape matches the task
schema's field layout"). -/
inductive JVal where
  | str (s : String)
  | num (n : Int)
  | bool (b : Bool)
  | null
  | arr (xs : List JVal)
  | obj (fields : List (String × JVal))

/-- Emit an optional field of a JSON object. -/
def optField (key : String) (v : Option JVal) : List (String × JVal) :=
  match v with
  | none => []
  | some j => [(key, j)]

/-- Modelled from the spec: pystachio `Process.get()` — the raw
JSON-representable value of a process, with placeholders rendered back into
mustache text and the scope environment not applied. -/
def Process.get (p : Process) : JVal :=
  JVal.obj (optField "name" (p.name.map fun ts => JVal.str ts.render) ++
    optField "cmdline" (p.cmdline.map fun ts => JVal.str ts.render) ++
    optField "daemon" (p.daemon.map JVal.bool) ++
    optField "ephemeral" (p.ephemeral.map JVal.bool) ++
    optField "final" (p.final.map JVal.bool))

/-- Modelled from the spec: pystachio `Task.get()` — "the template with
placeholders still in JSON-representable form"; the scope environment is not
applied. -/
def Task.get (t : Task) : JVal :=
  JVal.obj (optField "name" (t.name.map fun ts => JVal.str ts.render) ++
    optField "processes" (t.processes.map fun ps => JVal.arr (ps.map Process.get)))

/-- Merge a character onto the leading literal of a part list. -/
def consLit (c : Char) : List TPart → List TPart
  | TPart.lit s :: rest => TPart.lit (String.mk (c :: s.data)) :: rest
  | parts => TPart.lit (String.mk [c]) :: parts

/-- Modelled from the spec: the mustache scanner of pystachio — "template
placeholders use a double-brace mustache-like syntax".  Text between double
braces becomes an unresolved reference; everything else is literal text.
The fuel argument (instantiated with the length of the character list)
makes the recursion structural. -/
def parsePartsFuel : Nat → List Char → List TPart
  | 0, _ => []
  | _, [] => []
  | _ + 1, [c1] => [TPart.lit (String.mk [c1])]
  | fuel + 1, c1 :: c2 :: rest2 =>
      if c1 = lbrace ∧ c2 = lbrace then
        let addr := rest2.takeWhile (fun c => c ≠ rbrace)
        let rest3 := (rest2.dropWhile (fun c => c ≠ rbrace)).drop 2
        TPart.ref (Ref.from_address (String.mk addr)) :: parsePartsFuel fuel rest3
      else consLit c1 (parsePartsFuel fuel (c2 :: rest2))

/-- Modelled from the spec: parse a JSON string back into a templated
string; a string with no opening brace is a single literal. -/
def parseTStr (s : String) : TStr :=
  if s.data.contains lbrace then parsePartsFuel s.data.length s.data
  else [TPart.lit s]

/-- Coerce a JSON value to a string or fail, as the schema coercion does. -/
def JVal.asString : JVal → Except String String
  | .str s => Except.ok s
  | _ => Except.error "TypeError: expected a string value"

/-- Coerce a JSON value to a boolean or fail, as the schema coercion does. -/
def JVal.asBool : JVal → Except String Bool
  | .bool b => Except.ok b
  | _ => Except.error "TypeError: expected a boolean value"

/-- The empty process, before any field is populated. -/
def Process.empty : Process :=
  ⟨none, none, none, none, none, []⟩

/-- The empty task, before any field is populated. -/
def Task.empty : Task :=
  ⟨none, none, []⟩

/-- Modelled from the spec: construction of a `Process` schema object from a
parsed JSON dict (`Process(js)`); unknown attributes and ill-typed fields
raise. -/
def Process.ofJson : JVal → Except String Process
  | .obj fields =>
      fields.foldlM
        (fun p kv =>
          match kv with
          | ("name", v) => do
              let s ← v.asString
              pure { p with name := some (parseTStr s) }
          | ("cmdline", v) => do
              let s ← v.asString
              pure { p with cmdline := some (parseTStr s) }
          | ("daemon", v) => do
              let b ← v.asBool
              pure { p with daemon := some b }
          | ("ephemeral", v) => do
              let b ← v.asBool
              pure { p with ephemeral := some b }
          | ("final", v) => do
              let b ← v.asBool
              pure { p with final := some b }
          | (k, _) => Except.error ("AttributeError: unknown Process attribute " ++ k))
        Process.empty
  | _ => Except.error "TypeError: expected an object for Process"

/-- Coerce each element of a JSON array into a process, in order, failing
at the first ill-formed element. -/
def processesOfJson : List JVal → Except String (List Process)
  | [] => Except.ok []
  | v :: vs => do
      let p ← Process.ofJson v
      let ps ← processesOfJson vs
      pure (p :: ps)

/-- Modelled from the spec: construction of a `Task` schema object from a
parsed JSON dict (`Task(js)` in `from_file`); unknown attributes and
ill-typed fields raise. -/
def Task.ofJson : JVal → Except String Task
  | .obj fields =>
      fields.foldlM
        (fun t kv =>
          match kv with
          | ("name", v) => do
              let s ← v.asString
              pure { t with name := some (parseTStr s) }
          | ("processes", v) =>
              match v with
              | .arr xs => do
                  let ps ← processesOfJson xs
                  pure { t with processes := some ps }
              | _ => Except.error "TypeError: expected an array for processes"
          | (k, _) => Except.error ("AttributeError: unknown Task attribute " ++ k))
        Task.empty
  | _ => Except.error "TypeError: expected an object for Task"

/-- Embedding of the regular expression `^[^/]+$` of
`ThermosProcessWrapper.VALID_PROCESS_NAME_RE`: it matches exactly the
non-empty strings containing no slash. -/
def VALID_PROCESS_NAME_MATCH (s : String) : Bool :=
  !s.data.isEmpty && s.data.all (fun c => c ≠ '/')

/-- One step of the scanner loop of `ThermosProcessWrapper.ports`: compute
the sub-reference of one unresolved reference below `thermos.ports`, assert
that it is an index access, and collect its name. -/
def scanStep (port_scope : Ref) (ports : List String) (ref : Ref) :
    Except String (List String) :=
  match port_scope.scoped_to ref with
  | none => Except.ok ports
  | some subscope =>
      if subscope.is_index then Except.ok (ports ++ [subscope.action.value])
      else Except.error "AssertionError: subscope.is_index()"

/-- Embedding of `ThermosProcessWrapper.ports` (loader.py lines 28-37): scan
the unresolved references of the interpolated process for names below
`thermos.ports`.  The Python `assert` is modelled as the error case. -/
def ThermosProcessWrapper.ports (process : Process) : Except String (List String) :=
  (process.interpolate).2.foldlM (scanStep (Ref.from_address "thermos.ports")) []

/-- Embedding of `ThermosProcessWrapper.assert_valid_process_name`
(loader.py lines 39-42); assertion failure is the error case. -/
def ThermosProcessWrapper.assert_valid_process_name (name : String) :
    Except String Unit :=
  if VALID_PROCESS_NAME_MATCH name then Except.ok ()
  else Except.error ("AssertionError: Invalid process name: " ++ name)

/-- A constructed task wrapper holds the (possibly bound) task template. -/
structure ThermosTaskWrapper where
  task : Task
  deriving DecidableEq

/-- Embedding of `ThermosTaskWrapper.__init__` (loader.py lines 48-53):
apply the bindings when the sequence is non-empty (the Python truthiness
test), then type check; in strict mode a failed check raises `InvalidTask`
carrying the checker's message. -/
def ThermosTaskWrapper.init (task : Task) (bindings : List Binding)
    (strict : Bool) : Except String ThermosTaskWrapper :=
  let task := if bindings.isEmpty then task else task.bind bindings
  if !(task.check).ok && strict then Except.error (task.check).message
  else Except.ok ⟨task⟩

/-- One step of the per-process union of `ThermosTaskWrapper.ports`. -/
def portsStep (acc : Finset String) (process : Process) :
    Except String (Finset String) := do
  let l ← ThermosProcessWrapper.ports process
  pure (acc ∪ l.toFinset)

/-- Embedding of `ThermosTaskWrapper.ports` (loader.py lines 59-65):
interpolate the task and union the scanner results of every process; a task
without a processes field yields the empty set. -/
def ThermosTaskWrapper.ports (w : ThermosTaskWrapper) :
    Except String (Finset String) :=
  match (w.task.interpolate).1.processes with
  | none => Except.ok ∅
  | some ps => ps.foldlM portsStep ∅

/-- Embedding of `ThermosTaskWrapper.to_json` (loader.py lines 67-68): the
serialized document is the raw `get()` value of the held template (the
`json.dumps` text encoding is abstracted as the document itself). -/
def ThermosTaskWrapper.to_json (w : ThermosTaskWrapper) : JVal :=
  w.task.get

/-- Result of opening and JSON-parsing a file: the path may be missing, the
file unreadable, its text malformed JSON, or a parsed document. -/
inductive FileResult where
  | missing
  | ioError
  | malformed
  | doc (v : JVal)

/-- A file system maps a path to the outcome of reading and parsing it. -/
abbrev FS := String → FileResult

/-- Embedding of `ThermosTaskWrapper.to_file` (loader.py lines 70-73): write
the `get()` value of the interpolated template to the path (the `json.dump`
text encoding is abstracted as the document itself). -/
def ThermosTaskWrapper.to_file (w : ThermosTaskWrapper) (filename : String)
    (fs : FS) : FS :=
  fun n =>
    if n = filename then FileResult.doc ((w.task.interpolate).1.get) else fs n

/-- The try block of `ThermosTaskWrapper.from_file`: open and parse the
file, coerce the document into a `Task`, and construct a wrapper; any step
may raise. -/
def fromFileAttempt (fs : FS) (filename : String) (bindings : List Binding)
    (strict : Bool) : Except String ThermosTaskWrapper :=
  match fs filename with
  | FileResult.missing => Except.error "IOError: no such file"
  | FileResult.ioError => Except.error "IOError: cannot read file"
  | FileResult.malformed => Except.error "ValueError: malformed JSON document"
  | FileResult.doc v => do
      let t ← Task.ofJson v
      ThermosTaskWrapper.init t bindings strict

/-- Embedding of `ThermosTaskWrapper.from_file` (loader.py lines 75-82):
every exception of the attempt is swallowed into `none`. -/
def ThermosTaskWrapper.from_file (fs : FS) (filename : String)
    (bindings : List Binding) (strict : Bool) : Option ThermosTaskWrapper :=
  match fromFileAttempt fs filename bindings strict with
  | Except.ok w => some w
  | Except.error _ => none

/-- The loader holds the ordered list of exported tasks; `load_json` can
append a `None` placeholder, so entries are optional. -/
structure ThermosConfigLoader where
  exported_tasks : List (Option ThermosTaskWrapper)
  deriving DecidableEq

/-- Embedding of `ThermosConfigLoader.add_task` (loader.py lines 109-110). -/
def ThermosConfigLoader.add_task (tc : ThermosConfigLoader)
    (t : Option ThermosTaskWrapper) : ThermosConfigLoader :=
  ⟨tc.exported_tasks ++ [t]⟩

/-- Embedding of `ThermosConfigLoader.tasks` (loader.py lines 112-113). -/
def ThermosConfigLoader.tasks (tc : ThermosConfigLoader) :
    List (Option ThermosTaskWrapper) :=
  tc.exported_tasks

/-- Modelled from the spec: script evaluation in `ThermosConfigLoader.load`
(loader.py lines 89-98).  The evaluated configuration source is modelled by
the ordered sequence of task values on which it calls the injected `export`
function; each call wraps the task with the caller's bindings and strictness
and appends it, and any `InvalidTask` raised inside `export` propagates. -/
def ThermosConfigLoader.load (script : List Task) (bindings : List Binding)
    (strict : Bool) : Except String ThermosConfigLoader :=
  script.foldlM
    (fun tc task => do
      let w ← ThermosTaskWrapper.init task bindings strict
      pure (tc.add_task (some w)))
    ⟨[]⟩

/-- Embedding of `ThermosConfigLoader.load_json` (loader.py lines 100-104):
a fresh loader holding exactly the `from_file` result. -/
def ThermosConfigLoader.load_json (fs : FS) (filename : String)
    (bindings : List Binding) (strict : Bool) : ThermosConfigLoader :=
  ThermosConfigLoader.add_task ⟨[]⟩
    (ThermosTaskWrapper.from_file fs filename bindings strict)

/-- A Python dict, as a key/value association list in insertion order. -/
abbrev PyDict (V : Type) : Type := List (String × V)

/-- Set a key in a dict: overwrite in place when present, append when new. -/
def dictSet {V : Type} (d : PyDict V) (k : String) (v : V) : PyDict V :=
  if d.any (fun kv => kv.1 = k) then
    d.map (fun kv => if kv.1 = k then (k, v) else kv)
  else d ++ [(k, v)]

/-- A heap of Python dict objects; a dict handle is its index. -/
structure Heap (V : Type) where
  dicts : List (PyDict V)

/-- Allocate a fresh dict holding the given entries; returns its handle. -/
def Heap.alloc {V : Type} (h : Heap V) (d : PyDict V) : Heap V × Nat :=
  (⟨h.dicts ++ [d]⟩, h.dicts.length)

/-- Read the dict at a handle. -/
def Heap.dictAt {V : Type} (h : Heap V) (i : Nat) : PyDict V :=
  h.dicts.getD i []

/-- Mutate one key of the dict at a handle. -/
def Heap.setKey {V : Type} (h : Heap V) (i : Nat) (k : String) (v : V) :
    Heap V :=
  ⟨h.dicts.set i (dictSet (h.dicts.getD i []) k v)⟩

/-- Modelled from the spec: the namespace handling of
`ThermosConfigLoader.load` (loader.py lines 94-97).  `copy.copy(SCHEMA)`
allocates a fresh dict with the entries of the shared schema dict,
`schema_copy['export'] = export` mutates the copy, and script evaluation is
modelled as an arbitrary sequence of name assignments applied to the
namespace dict.  Returns the final heap and the namespace handle. -/
def loadNamespaceEval {V : Type} (h : Heap V) (schemaAddr : Nat)
    (exportVal : V) (muts : List (String × V)) : Heap V × Nat :=
  let copied := h.alloc (h.dictAt schemaAddr)
  let h1 := copied.1
  let ns := copied.2
  let h2 := h1.setKey ns "export" exportVal
  (muts.foldl (fun hh kv => hh.setKey ns kv.1 kv.2) h2, ns)

/-! Helper lemmas. -/

@[simp] theorem except_bind_ok {ε α β : Type} (a : α) (f : α → Except ε β) :
    (Except.ok a >>= f) = f a := rfl

@[simp] theorem except_bind_error {ε α β : Type} (e : ε) (f : α → Except ε β) :
    ((Except.error e : Except ε α) >>= f) = Except.error e := rfl

@[simp] theorem except_pure_eq {ε α : Type} (a : α) :
    (pure a : Except ε α) = Except.ok a := rfl

theorem Task.bind_nil (t : Task) : t.bind [] = t := by
  simp [Task.bind]

theorem init_eq (T : Task) (B : List Binding) (s : Bool) :
    ThermosTaskWrapper.init T B s =
      if !((T.bind B).check).ok && s then
        Except.error ((T.bind B).check).message
      else Except.ok ⟨T.bind B⟩ := by
  unfold ThermosTaskWrapper.init
  cases B with
  | nil => simp [Task.bind_nil]
  | cons b bs => simp

/-! Claim theorems. -/

/-- C1: constructing a `ThermosTaskWrapper` first applies the bindings in
order to the template; with `strict = true` construction succeeds exactly
when the bound template passes validation, and on failure it raises
`InvalidTask` carrying the checker's diagnostic message; with
`strict = false` it always succeeds. -/
theorem C1_init_strict_validation (T : Task) (B : List Binding) :
    (∀ w, ThermosTaskWrapper.init T B true = Except.ok w →
      w.task = T.bind B ∧ ((T.bind B).check).ok = true) ∧
    (((T.bind B).check).ok = false →
      ThermosTaskWrapper.init T B true = Except.error ((T.bind B).check).message) ∧
    (((T.bind B).check).ok = true →
      ThermosTaskWrapper.init T B true = Except.ok ⟨T.bind B⟩) ∧
    ThermosTaskWrapper.init T B false = Except.ok ⟨T.bind B⟩ := by
  refine ⟨?_, ?_, ?_, ?_⟩
  · intro w hw
    rw [init_eq] at hw
    cases h : ((T.bind B).check).ok
    · simp [h] at hw
    · simp [h] at hw
      exact ⟨by rw [← hw], rfl⟩
  · intro h
    rw [init_eq]
    simp [h]
  · intro h
    rw [init_eq]
    simp [h]
  · rw [init_eq]
    simp

def sampleProc : Process :=
  ⟨some [TPart.lit "web"], some [TPart.lit "run"], none, none, none, []⟩

def sampleTask : Task :=
  ⟨some [TPart.lit "hello"], some [sampleProc], []⟩

theorem C1_init_strict_validation_witness :
    ThermosTaskWrapper.init sampleTask [] true = Except.ok ⟨sampleTask.bind []⟩ :=
  (C1_init_strict_validation sampleTask []).2.2.1 (by decide)

/-- C10: `assert_valid_process_name` succeeds exactly for non-empty strings
containing no slash, and otherwise fails the assertion with an
"Invalid process name" message. -/
theorem C10_valid_process_name (name : String) :
    (ThermosProcessWrapper.assert_valid_process_name name = Except.ok () ↔
      name.data ≠ [] ∧ ∀ c ∈ name.data, c ≠ '/') ∧
    (¬(name.data ≠ [] ∧ ∀ c ∈ name.data, c ≠ '/') →
      ThermosProcessWrapper.assert_valid_process_name name =
        Except.error ("AssertionError: Invalid process name: " ++ name)) := by
  have hcond : VALID_PROCESS_NAME_MATCH name = true ↔
      name.data ≠ [] ∧ ∀ c ∈ name.data, c ≠ '/' := by
    simp [VALID_PROCESS_NAME_MATCH, List.isEmpty_iff]
  constructor
  · rw [← hcond]
    unfold ThermosProcessWrapper.assert_valid_process_name
    cases h : VALID_PROCESS_NAME_MATCH name <;> simp [h]
  · rw [← hcond]
    unfold ThermosProcessWrapper.assert_valid_process_name
    cases h : VALID_PROCESS_NAME_MATCH name <;> simp [h]

theorem C10_valid_process_name_witness :
    ThermosProcessWrapper.assert_valid_process_name "web" = Except.ok () ∧
    ThermosProcessWrapper.assert_valid_process_name "a/b" =
      Except.error ("AssertionError: Invalid process name: " ++ "a/b") :=
  ⟨(C10_valid_process_name "web").1.mpr (by decide),
   (C10_valid_process_name "a/b").2 (by decide)⟩

/-- C9: `load_json` returns a loader whose task list has exactly one entry,
the `from_file` result; when parsing or validation failed that entry is the
`None` placeholder. -/
theorem C9_load_json_single_entry (fs : FS) (fn : String) (B : List Binding)
    (strict : Bool) :
    (ThermosConfigLoader.load_json fs fn B strict).tasks =
      [ThermosTaskWrapper.from_file fs fn B strict] ∧
    ((ThermosConfigLoader.load_json fs fn B strict).tasks).length = 1 ∧
    (ThermosTaskWrapper.from_file fs fn B strict = none →
      (ThermosConfigLoader.load_json fs fn B strict).tasks = [none]) := by
  refine ⟨rfl, rfl, ?_⟩
  intro h
  simp [ThermosConfigLoader.load_json, ThermosConfigLoader.tasks,
    ThermosConfigLoader.add_task, h]

def missingFS : FS := fun _ => FileResult.missing

theorem C9_load_json_single_entry_witness :
    (ThermosConfigLoader.load_json missingFS "cfg.json" [] true).tasks = [none] :=
  (C9_load_json_single_entry missingFS "cfg.json" [] true).2.2 rfl

theorem Heap.dictAt_setKey_ne {V : Type} (h : Heap V) (i j : Nat) (k : String)
    (v : V) (hne : j ≠ i) : (h.setKey i k v).dictAt j = h.dictAt j := by
  simp [Heap.setKey, Heap.dictAt, List.getElem?_set_ne (Ne.symm hne)]

theorem Heap.dictAt_foldl_setKey_ne {V : Type} (muts : List (String × V))
    (h : Heap V) (ns j : Nat) (hne : j ≠ ns) :
    (muts.foldl (fun hh kv => hh.setKey ns kv.1 kv.2) h).dictAt j = h.dictAt j := by
  induction muts generalizing h with
  | nil => rfl
  | cons m ms ih =>
      rw [List.foldl_cons, ih, Heap.dictAt_setKey_ne _ _ _ _ _ hne]

theorem Heap.dictAt_alloc_lt {V : Type} (h : Heap V) (d : PyDict V) (j : Nat)
    (hj : j < h.dicts.length) : ((h.alloc d).1).dictAt j = h.dictAt j := by
  simp [Heap.alloc, Heap.dictAt, List.getElem?_append_left hj]

/-- C8: the evaluation namespace of `load` is a shallow copy of the shared
schema dict: inserting `export` and any sequence of namespace mutations
performed during script evaluation leave the shared schema dict unchanged,
and the namespace is a distinct object from the schema dict. -/
theorem C8_schema_copy_isolated {V : Type} (h : Heap V) (schemaAddr : Nat)
    (exportVal : V) (muts : List (String × V))
    (hlt : schemaAddr < h.dicts.length) :
    ((loadNamespaceEval h schemaAddr exportVal muts).1).dictAt schemaAddr =
      h.dictAt schemaAddr ∧
    (loadNamespaceEval h schemaAddr exportVal muts).2 ≠ schemaAddr := by
  have hne : schemaAddr ≠ h.dicts.length := Nat.ne_of_lt hlt
  constructor
  · unfold loadNamespaceEval
    rw [Heap.dictAt_foldl_setKey_ne _ _ _ _ (by simpa [Heap.alloc] using hne)]
    rw [Heap.dictAt_setKey_ne _ _ _ _ _ (by simpa [Heap.alloc] using hne)]
    exact Heap.dictAt_alloc_lt h _ schemaAddr hlt
  · unfold loadNamespaceEval
    simpa [Heap.alloc] using fun hc => hne (hc.symm)

def sampleHeap : Heap Nat := ⟨[[("Task", 1), ("Process", 2)]]⟩

theorem C8_schema_copy_isolated_witness :
    ((loadNamespaceEval sampleHeap 0 7 [("Task", 9), ("x", 3)]).1).dictAt 0 =
      sampleHeap.dictAt 0 ∧
    (loadNamespaceEval sampleHeap 0 7 [("Task", 9), ("x", 3)]).2 ≠ 0 :=
  C8_schema_copy_isolated sampleHeap 0 7 [("Task", 9), ("x", 3)] (by decide)

/-- C4: on every failing input — nonexistent path, unreadable file,
malformed JSON, or a document failing coercion or validation — `from_file`
returns `none` rather than raising; on success it returns the wrapper
constructed from the parsed document. -/
theorem C4_from_file_never_raises (fs : FS) (fn : String) (B : List Binding)
    (strict : Bool) :
    ((fs fn = FileResult.missing ∨ fs fn = FileResult.ioError ∨
        fs fn = FileResult.malformed) →
      ThermosTaskWrapper.from_file fs fn B strict = none) ∧
    (∀ v e, fs fn = FileResult.doc v → Task.ofJson v = Except.error e →
      ThermosTaskWrapper.from_file fs fn B strict = none) ∧
    (∀ v t e, fs fn = FileResult.doc v → Task.ofJson v = Except.ok t →
      ThermosTaskWrapper.init t B strict = Except.error e →
      ThermosTaskWrapper.from_file fs fn B strict = none) ∧
    (∀ v t w, fs fn = FileResult.doc v → Task.ofJson v = Except.ok t →
      ThermosTaskWrapper.init t B strict = Except.ok w →
      ThermosTaskWrapper.from_file fs fn B strict = some w) := by
  refine ⟨?_, ?_, ?_, ?_⟩
  · intro h
    rcases h with h | h | h <;>
      simp [ThermosTaskWrapper.from_file, fromFileAttempt, h]
  · intro v e h1 h2
    simp [ThermosTaskWrapper.from_file, fromFileAttempt, h1, h2]
  · intro v t e h1 h2 h3
    simp [ThermosTaskWrapper.from_file, fromFileAttempt, h1, h2, h3]
  · intro v t w h1 h2 h3
    simp [ThermosTaskWrapper.from_file, fromFileAttempt, h1, h2, h3]

def sampleDocFS : FS :=
  fun n => if n = "good.json" then FileResult.doc sampleTask.get
    else FileResult.missing

theorem C4_from_file_never_raises_witness :
    ThermosTaskWrapper.from_file sampleDocFS "absent.json" [] true = none ∧
    ThermosTaskWrapper.from_file sampleDocFS "good.json" [] true =
      some ⟨sampleTask⟩ :=
  ⟨(C4_from_file_never_raises sampleDocFS "absent.json" [] true).1
      (Or.inl rfl),
   (C4_from_file_never_raises sampleDocFS "good.json" [] true).2.2.2
      sampleTask.get sampleTask ⟨sampleTask⟩ rfl (by decide) (by decide)⟩

/-- C7: `to_json` serializes the raw, uninterpolated template value: the
document it produces is the `get` value of the template before the bindings
were applied, for every successfully constructed wrapper. -/
theorem C7_to_json_raw_template (T : Task) (B : List Binding) (strict : Bool)
    (w : ThermosTaskWrapper)
    (h : ThermosTaskWrapper.init T B strict = Except.ok w) :
    w.to_json = T.get := by
  rw [init_eq] at h
  by_cases hc : (!((T.bind B).check).ok && strict) = true
  · rw [if_pos hc] at h
    exact absurd h (by simp)
  · rw [if_neg hc] at h
    have hw : w = ⟨T.bind B⟩ := by
      cases h
      rfl
  -- the raw document ignores the attached scope environment
    rw [hw]
    rfl

theorem C7_to_json_raw_template_witness :
    ThermosTaskWrapper.to_json ⟨sampleTask.bind [(Ref.from_address "a", "v")]⟩ =
      sampleTask.get :=
  C7_to_json_raw_template sampleTask [(Ref.from_address "a", "v")] true
    ⟨sampleTask.bind [(Ref.from_address "a", "v")]⟩ (by decide)

/-- Wrap every task of a script in order with the given bindings and
strictness, failing at the first invalid task. -/
def initAll (script : List Task) (bindings : List Binding) (strict : Bool) :
    Except String (List ThermosTaskWrapper) :=
  match script with
  | [] => Except.ok []
  | t :: ts => do
      let w ← ThermosTaskWrapper.init t bindings strict
      let ws ← initAll ts bindings strict
      pure (w :: ws)

theorem load_foldlM_eq (script : List Task) (B : List Binding) (strict : Bool)
    (acc : ThermosConfigLoader) :
    (script.foldlM
        (fun tc task => do
          let w ← ThermosTaskWrapper.init task B strict
          pure (tc.add_task (some w)))
        acc) =
      match initAll script B strict with
      | Except.ok ws => Except.ok ⟨acc.exported_tasks ++ ws.map some⟩
      | Except.error e => Except.error e := by
  induction script generalizing acc with
  | nil =>
      simp only [List.foldlM_nil, initAll, List.map_nil, List.append_nil]
      rfl
  | cons t ts ih =>
      cases h : ThermosTaskWrapper.init t B strict with
      | error e => simp only [List.foldlM_cons, initAll, h, except_bind_error]
      | ok w =>
          simp only [List.foldlM_cons, initAll, h, except_bind_ok, pure_bind]
          rw [ih]
          cases hts : initAll ts B strict with
          | error e => simp
          | ok ws => simp [ThermosConfigLoader.add_task]

/-- C6: the loader returned by `load` yields exactly the exported tasks,
each wrapped with the caller's bindings and strictness, in export order;
an invalid export under strict mode propagates out of `load`. -/
theorem C6_load_export_order (script : List Task) (B : List Binding)
    (strict : Bool) :
    (∀ tc, ThermosConfigLoader.load script B strict = Except.ok tc →
      ∃ ws, initAll script B strict = Except.ok ws ∧ tc.tasks = ws.map some) ∧
    (∀ e, initAll script B strict = Except.error e →
      ThermosConfigLoader.load script B strict = Except.error e) := by
  constructor
  · intro tc htc
    unfold ThermosConfigLoader.load at htc
    rw [load_foldlM_eq] at htc
    cases h : initAll script B strict with
    | error e => rw [h] at htc; exact absurd htc (by simp)
    | ok ws =>
        rw [h] at htc
        refine ⟨ws, rfl, ?_⟩
        cases htc
        rfl
  · intro e he
    unfold ThermosConfigLoader.load
    rw [load_foldlM_eq, he]

def sampleTaskB : Task :=
  ⟨some [TPart.lit "second"], some [sampleProc], []⟩

theorem C6_load_export_order_witness :
    ∃ ws, initAll [sampleTask, sampleTaskB] [] true = Except.ok ws ∧
      (ThermosConfigLoader.mk [some ⟨sampleTask⟩, some ⟨sampleTaskB⟩]).tasks =
        ws.map some :=
  (C6_load_export_order [sampleTask, sampleTaskB] [] true).1
    ⟨[some ⟨sampleTask⟩, some ⟨sampleTaskB⟩]⟩ (by decide)

theorem scan_ok (pfx : Ref) (rs : List Ref) (acc : List String)
    (h : ∀ r ∈ rs, ((pfx.scoped_to r).all Ref.is_index) = true) :
    rs.foldlM (scanStep pfx) acc =
      Except.ok (acc ++ rs.filterMap fun r =>
        (pfx.scoped_to r).map fun sub => sub.action.value) := by
  induction rs generalizing acc with
  | nil => simp
  | cons r rs ih =>
      have hr := h r (by simp)
      have htail : ∀ r' ∈ rs, ((pfx.scoped_to r').all Ref.is_index) = true :=
        fun r' hr' => h r' (by simp [hr'])
      rw [List.foldlM_cons]
      cases hs : pfx.scoped_to r with
      | none =>
          have hstep : scanStep pfx acc r = Except.ok acc := by
            simp [scanStep, hs]
          rw [hstep, except_bind_ok, ih _ htail]
          simp [hs]
      | some sub =>
          rw [hs] at hr
          simp only [Option.all] at hr
          have hstep : scanStep pfx acc r =
              Except.ok (acc ++ [sub.action.value]) := by
            simp [scanStep, hs, hr]
          rw [hstep, except_bind_ok, ih _ htail]
          simp [hs, hr]

theorem scan_err (pfx : Ref) (rs : List Ref) (acc : List String)
    (h : ∃ r ∈ rs, ((pfx.scoped_to r).all Ref.is_index) = false) :
    rs.foldlM (scanStep pfx) acc =
      Except.error "AssertionError: subscope.is_index()" := by
  induction rs generalizing acc with
  | nil => simp at h
  | cons r rs ih =>
      obtain ⟨r', hr', hbad⟩ := h
      rw [List.foldlM_cons]
      rcases List.mem_cons.mp hr' with rfl | hmem
      · cases hs : pfx.scoped_to r' with
        | none => rw [hs] at hbad; simp [Option.all] at hbad
        | some sub =>
            rw [hs] at hbad
            simp only [Option.all] at hbad
            have hstep : scanStep pfx acc r' =
                Except.error "AssertionError: subscope.is_index()" := by
              simp [scanStep, hs, hbad]
            rw [hstep, except_bind_error]
      · cases hs : pfx.scoped_to r with
        | none =>
            have hstep : scanStep pfx acc r = Except.ok acc := by
              simp [scanStep, hs]
            rw [hstep, except_bind_ok]
            exact ih _ ⟨r', hmem, hbad⟩
        | some sub =>
            cases hi : sub.is_index with
            | false =>
                have hstep : scanStep pfx acc r =
                    Except.error "AssertionError: subscope.is_index()" := by
                  simp [scanStep, hs, hi]
                rw [hstep, except_bind_error]
            | true =>
                have hstep : scanStep pfx acc r =
                    Except.ok (acc ++ [sub.action.value]) := by
                  simp [scanStep, hs, hi]
                rw [hstep, except_bind_ok]
                exact ih _ ⟨r', hmem, hbad⟩

/-- C3: the scanner collects, for each unresolved reference whose path falls
under `thermos.ports`, the single index name; when the sub-reference of some
unresolved reference is not a single-level index access, the scanner fails
the assertion instead of returning a result. -/
theorem C3_scanner_port_names (p : Process) :
    ((∀ r ∈ (p.interpolate).2,
        (((Ref.from_address "thermos.ports").scoped_to r).all Ref.is_index) = true) →
      ThermosProcessWrapper.ports p = Except.ok
        ((p.interpolate).2.filterMap fun r =>
          ((Ref.from_address "thermos.ports").scoped_to r).map
            fun sub => sub.action.value)) ∧
    ((∃ r ∈ (p.interpolate).2,
        (((Ref.from_address "thermos.ports").scoped_to r).all Ref.is_index) = false) →
      ThermosProcessWrapper.ports p =
        Except.error "AssertionError: subscope.is_index()") := by
  constructor
  · intro h
    unfold ThermosProcessWrapper.ports
    rw [scan_ok _ _ _ h]
    simp
  · intro h
    unfold ThermosProcessWrapper.ports
    exact scan_err _ _ _ h

def procHttp : Process :=
  ⟨some [TPart.lit "web"],
   some [TPart.lit "run --port ", TPart.ref (Ref.from_address "thermos.ports[http]"),
     TPart.ref (Ref.from_address "mesos.instance")],
   none, none, none, []⟩

def procNested : Process :=
  ⟨some [TPart.lit "bad"],
   some [TPart.ref (Ref.from_address "thermos.ports.health.sub")],
   none, none, none, []⟩

theorem C3_scanner_port_names_witness :
    ThermosProcessWrapper.ports procHttp = Except.ok ["http"] ∧
    ThermosProcessWrapper.ports procNested =
      Except.error "AssertionError: subscope.is_index()" := by
  constructor
  · have h := (C3_scanner_port_names procHttp).1 (by decide)
    rw [h]
    decide
  · exact (C3_scanner_port_names procNested).2 (by decide)

/-- Success test for an `Except` value. -/
def exceptIsOk {ε α : Type} : Except ε α → Bool
  | Except.ok _ => true
  | Except.error _ => false

theorem portsFold_ok (ps : List Process) (acc : Finset String)
    (h : ∀ p ∈ ps, exceptIsOk (ThermosProcessWrapper.ports p) = true) :
    ∃ s, ps.foldlM portsStep acc = Except.ok s ∧
      ∀ x, x ∈ s ↔ x ∈ acc ∨
        ∃ p ∈ ps, ∃ l, ThermosProcessWrapper.ports p = Except.ok l ∧ x ∈ l := by
  induction ps generalizing acc with
  | nil => exact ⟨acc, by simp, by simp⟩
  | cons p ps ih =>
      obtain ⟨l, hl⟩ : ∃ l, ThermosProcessWrapper.ports p = Except.ok l := by
        have hp := h p (by simp)
        cases hpp : ThermosProcessWrapper.ports p with
        | ok l => exact ⟨l, rfl⟩
        | error e => rw [hpp] at hp; simp [exceptIsOk] at hp
      obtain ⟨s, hs, hmem⟩ :=
        ih (acc ∪ l.toFinset) (fun q hq => h q (by simp [hq]))
      have hstep : portsStep acc p = Except.ok (acc ∪ l.toFinset) := by
        simp [portsStep, hl]
      refine ⟨s, by rw [List.foldlM_cons, hstep, except_bind_ok]; exact hs, ?_⟩
      intro x
      rw [hmem x]
      simp only [Finset.mem_union, List.mem_toFinset, List.mem_cons]
      constructor
      · rintro ((hx | hx) | ⟨q, hq, l', hl', hx⟩)
        · exact Or.inl hx
        · exact Or.inr ⟨p, Or.inl rfl, l, hl, hx⟩
        · exact Or.inr ⟨q, Or.inr hq, l', hl', hx⟩
      · rintro (hx | ⟨q, hq | hq, l', hl', hx⟩)
        · exact Or.inl (Or.inl hx)
        · refine Or.inl (Or.inr ?_)
          rw [hq] at hl'
          rw [hl] at hl'
          cases hl'
          exact hx
        · exact Or.inr ⟨q, hq, l', hl', hx⟩

/-- C2: for a wrapper, `ports` returns the deduplicated union over all
processes of the interpolated task of the names found by the per-process
scanner, and the empty set when the task declares no processes. -/
theorem C2_ports_dedup_union (w : ThermosTaskWrapper) :
    ((w.task.interpolate).1.processes = none → w.ports = Except.ok ∅) ∧
    (∀ ps, (w.task.interpolate).1.processes = some ps →
      (∀ p ∈ ps, exceptIsOk (ThermosProcessWrapper.ports p) = true) →
      ∃ s, w.ports = Except.ok s ∧
        ∀ x, x ∈ s ↔
          ∃ p ∈ ps, ∃ l, ThermosProcessWrapper.ports p = Except.ok l ∧ x ∈ l) := by
  constructor
  · intro h
    unfold ThermosTaskWrapper.ports
    rw [h]
  · intro ps hps h
    unfold ThermosTaskWrapper.ports
    rw [hps]
    obtain ⟨s, hs, hmem⟩ := portsFold_ok ps ∅ h
    exact ⟨s, hs, fun x => by rw [hmem x]; simp⟩

def procHealth : Process :=
  ⟨some [TPart.lit "monitor"],
   some [TPart.ref (Ref.from_address "thermos.ports[http]"),
     TPart.ref (Ref.from_address "thermos.ports[health]")],
   none, none, none, []⟩

def portsTask : Task :=
  ⟨some [TPart.lit "ports"], some [procHttp, procHealth], []⟩

theorem C2_ports_dedup_union_witness :
    ∃ s, ThermosTaskWrapper.ports ⟨portsTask⟩ = Except.ok s ∧
      ∀ x, x ∈ s ↔ ∃ p ∈ [procHttp, procHealth],
        ∃ l, ThermosProcessWrapper.ports p = Except.ok l ∧ x ∈ l :=
  (C2_ports_dedup_union ⟨portsTask⟩).2 [procHttp, procHealth] (by decide)
    (by decide)

/-- A templated string is concrete when every part is literal text and the
rendered text contains no opening brace (so it re-parses as a literal). -/
def TStr.isConcrete (ts : TStr) : Bool :=
  (ts.all fun p =>
    match p with
    | TPart.lit _ => true
    | TPart.ref _ => false) &&
  !(ts.render.data.contains lbrace)

/-- Concreteness of an optional templated field. -/
def optIsConcrete : Option TStr → Bool
  | none => true
  | some ts => ts.isConcrete

/-- A process is concrete when its templated fields are. -/
def Process.isConcrete (p : Process) : Bool :=
  optIsConcrete p.name && optIsConcrete p.cmdline

/-- A task is concrete (fully bound) when all its templated fields are. -/
def Task.isConcrete (t : Task) : Bool :=
  optIsConcrete t.name &&
    (match t.processes with
     | none => true
     | some ps => ps.all Process.isConcrete)

/-- The single-literal form a templated string assumes after being rendered
to JSON and re-parsed. -/
def canonTStr (ts : TStr) : TStr :=
  [TPart.lit ts.render]

/-- The form a process assumes after a `get`/`ofJson` round trip. -/
def canonProcess (p : Process) : Process :=
  ⟨p.name.map canonTStr, p.cmdline.map canonTStr,
   p.daemon, p.ephemeral, p.final, []⟩

/-- The form a task assumes after a `get`/`ofJson` round trip. -/
def canonTask (t : Task) : Task :=
  ⟨t.name.map canonTStr, t.processes.map fun ps => ps.map canonProcess, []⟩

theorem canonTStr_render (ts : TStr) : (canonTStr ts).render = ts.render := by
  simp [canonTStr, TStr.render, TPart.render]

theorem parseTStr_concrete (ts : TStr) (h : ts.isConcrete = true) :
    parseTStr ts.render = canonTStr ts := by
  simp only [TStr.isConcrete, Bool.and_eq_true, Bool.not_eq_true'] at h
  unfold parseTStr
  rw [if_neg (by rw [h.2]; simp)]
  rfl

theorem canonProcess_get (p : Process) : (canonProcess p).get = p.get := by
  cases hn : p.name <;> cases hc : p.cmdline <;>
    simp [canonProcess, Process.get, hn, hc, canonTStr_render]

theorem map_get_canon (ps : List Process) :
    ps.map (Process.get ∘ canonProcess) = ps.map Process.get := by
  induction ps with
  | nil => rfl
  | cons q qs ih => simp [Function.comp, canonProcess_get, ih]

theorem canonTask_get (t : Task) : (canonTask t).get = t.get := by
  cases hn : t.name <;> cases hp : t.processes <;>
    simp [canonTask, Task.get, hn, hp, canonTStr_render,
      List.map_map, map_get_canon]

theorem canonTStr_subst (env : List Binding) (ts : TStr) :
    TStr.subst env (canonTStr ts) = canonTStr ts := rfl

theorem canonProcess_interp (env : List Binding) (p : Process) :
    (Process.withScopes env (canonProcess p)).interpolate =
      (canonProcess p, []) := by
  cases hn : p.name <;> cases hc : p.cmdline <;>
    simp [canonProcess, Process.withScopes, Process.interpolate, hn, hc,
      canonTStr, TStr.subst, TPart.subst, uninterpO, TStr.uninterp]

theorem canon_map_interp (ps : List Process) :
    (ps.map canonProcess).map
        (fun p => (Process.withScopes [] p).interpolate) =
      ps.map (fun q => (canonProcess q, ([] : List Ref))) := by
  induction ps with
  | nil => rfl
  | cons q qs ih => simp [canonProcess_interp [] q, ih]

theorem foldr_append_nil_all (ps : List Process) :
    ((ps.map fun _ => ([] : List Ref)).foldr (· ++ ·) []) = [] := by
  induction ps with
  | nil => rfl
  | cons q qs ih => simpa using ih

theorem foldr_append_replicate_nil (n : Nat) :
    ((List.replicate n ([] : List Ref)).foldr (· ++ ·) []) = [] := by
  induction n with
  | zero => rfl
  | succ m ih => simpa using ih

theorem map_snd_interp_canon (ps : List Process) :
    ps.map (Prod.snd ∘ (fun p => (Process.withScopes [] p).interpolate) ∘
        canonProcess) =
      ps.map fun _ => ([] : List Ref) := by
  induction ps with
  | nil => rfl
  | cons q qs ih => simp [Function.comp, canonProcess_interp, ih]

theorem canonTask_interp (t : Task) :
    (canonTask t).interpolate = (canonTask t, []) := by
  cases hp : t.processes with
  | none =>
      cases hn : t.name <;>
        simp [canonTask, Task.interpolate, hn, hp, canonTStr, TStr.subst,
          TPart.subst, uninterpO, TStr.uninterp]
  | some ps =>
      cases hn : t.name <;>
        simp [canonTask, Task.interpolate, hn, hp, canonTStr, TStr.subst,
          TPart.subst, uninterpO, TStr.uninterp, canon_map_interp,
          canonProcess_interp, List.map_map, map_snd_interp_canon,
          foldr_append_nil_all, foldr_append_replicate_nil]

theorem ofJson_get_process (p : Process) (h : p.isConcrete = true) :
    Process.ofJson p.get = Except.ok (canonProcess p) := by
  obtain ⟨n, c, d, e, f, sc⟩ := p
  simp only [Process.isConcrete, Bool.and_eq_true] at h
  obtain ⟨h1, h2⟩ := h
  cases n <;> cases c <;> cases d <;> cases e <;> cases f <;>
    simp_all [Process.ofJson, Process.get, optField, canonProcess,
      optIsConcrete, JVal.asString, JVal.asBool, Process.empty,
      parseTStr_concrete, List.foldlM]

theorem processesOfJson_get (ps : List Process)
    (h : ps.all Process.isConcrete = true) :
    processesOfJson (ps.map Process.get) =
      Except.ok (ps.map canonProcess) := by
  induction ps with
  | nil => rfl
  | cons q qs ih =>
      simp only [List.all_cons, Bool.and_eq_true] at h
      simp [processesOfJson, ofJson_get_process q h.1, ih h.2]

theorem ofJson_get_task (t : Task) (h : t.isConcrete = true) :
    Task.ofJson t.get = Except.ok (canonTask t) := by
  obtain ⟨n, ps, sc⟩ := t
  simp only [Task.isConcrete, Bool.and_eq_true] at h
  obtain ⟨h1, h2⟩ := h
  cases n <;> cases ps <;>
    simp_all [Task.ofJson, Task.get, optField, canonTask, optIsConcrete,
      JVal.asString, Task.empty, parseTStr_concrete, processesOfJson_get,
      List.foldlM]

theorem Task.check_ok_iff (t : Task) :
    (t.check).ok = true ↔
      t.name.isSome = true ∧
        ∃ ps, t.processes = some ps ∧ ∀ p ∈ ps, (p.check).ok = true := by
  unfold Task.check
  cases hn : t.name with
  | none => simp
  | some n =>
      cases hp : t.processes with
      | none => simp
      | some ps =>
          simp only [Option.isNone_some, Bool.false_eq_true, if_false,
            Option.isSome_some, Option.some.injEq, true_and]
          constructor
          · intro hok
            split at hok
            next q heq =>
              have hq := List.find?_some heq
              simp only [Bool.not_eq_true'] at hq
              rw [hq] at hok
              cases hok
            next heq =>
              exact ⟨ps, rfl, fun p hp' => by
                simpa using List.find?_eq_none.mp heq p hp'⟩
          · rintro ⟨ps', hps', hall⟩
            cases hps'
            split
            next q heq =>
              have h1 := List.find?_some heq
              have h2 := hall q (List.mem_of_find?_eq_some heq)
              rw [h2] at h1
              cases h1
            next heq => rfl

theorem Process.check_ok_withScopes_interp (env : List Binding)
    (p : Process) :
    ((((Process.withScopes env p).interpolate).1).check).ok = (p.check).ok := by
  cases hn : p.name <;> cases hc : p.cmdline <;>
    simp [Process.withScopes, Process.interpolate, Process.check, hn, hc]

theorem check_ok_canon_process (p : Process) :
    (((canonProcess p).check).ok) = (p.check).ok := by
  cases hn : p.name <;> cases hc : p.cmdline <;>
    simp [canonProcess, Process.check, hn, hc]

theorem Task.check_ok_interp (t : Task) :
    ((((t.interpolate).1).check).ok) = (t.check).ok := by
  rw [Bool.eq_iff_iff, Task.check_ok_iff, Task.check_ok_iff]
  unfold Task.interpolate
  cases hp : t.processes with
  | none => simp
  | some ps =>
      simp [Option.isSome_map', List.map_map, List.forall_mem_map,
        Function.comp, Process.check_ok_withScopes_interp]

theorem check_ok_canon_task (t : Task) :
    (((canonTask t).check).ok) = (t.check).ok := by
  rw [Bool.eq_iff_iff, Task.check_ok_iff, Task.check_ok_iff]
  unfold canonTask
  cases hp : t.processes with
  | none => simp
  | some ps =>
      simp [Option.isSome_map', List.forall_mem_map,
        check_ok_canon_process]

/-- C5: writing a validated, fully-bound wrapper with `to_file` and reading
the document back with `from_file` yields a wrapper whose interpolated JSON
representation equals the original wrapper's interpolated JSON
representation. -/
theorem C5_to_file_from_file_roundtrip (w : ThermosTaskWrapper) (fs : FS)
    (fn : String) (hok : ((w.task.check)).ok = true)
    (hconc : ((w.task.interpolate).1).isConcrete = true) :
    ∃ w', ThermosTaskWrapper.from_file (w.to_file fn fs) fn [] true = some w' ∧
      ((w'.task.interpolate).1).get = ((w.task.interpolate).1).get := by
  have h1 : (w.to_file fn fs) fn =
      FileResult.doc ((w.task.interpolate).1).get := by
    simp [ThermosTaskWrapper.to_file]
  have h2 : Task.ofJson ((w.task.interpolate).1).get =
      Except.ok (canonTask ((w.task.interpolate).1)) :=
    ofJson_get_task _ hconc
  have h3 : ((canonTask ((w.task.interpolate).1)).check).ok = true := by
    rw [check_ok_canon_task, Task.check_ok_interp]
    exact hok
  have h4 : ThermosTaskWrapper.init (canonTask ((w.task.interpolate).1)) []
      true = Except.ok ⟨canonTask ((w.task.interpolate).1)⟩ := by
    unfold ThermosTaskWrapper.init
    simp [h3]
  refine ⟨⟨canonTask ((w.task.interpolate).1)⟩, ?_, ?_⟩
  · unfold ThermosTaskWrapper.from_file fromFileAttempt
    rw [h1]
    simp [h2, h4]
  · show ((canonTask ((w.task.interpolate).1)).interpolate).1.get = _
    rw [canonTask_interp]
    exact canonTask_get _

theorem C5_to_file_from_file_roundtrip_witness :
    ∃ w', ThermosTaskWrapper.from_file
        (ThermosTaskWrapper.to_file ⟨sampleTask⟩ "task.json" missingFS)
        "task.json" [] true = some w' ∧
      ((w'.task.interpolate).1).get =
        (((⟨sampleTask⟩ : ThermosTaskWrapper).task.interpolate).1).get :=
  C5_to_file_from_file_roundtrip ⟨sampleTask⟩ missingFS "task.json"
    (by decide) (by decide)

end Thermos
